import Mathlib

/-!
Verification of the Biscuit authorizer (`src/biscuit-auth/src/token/authorizer.rs`)
against its natural-language specification.

The authorizer code itself (`authorizer.rs`) is translated directly.  The
Datalog engine (`datalog::World`, `TrustedOrigins`), the builder types and the
wire format live outside the provided sources, so those parts are modelled
from the specification; each such definition carries a doc comment starting
with `Modelled from the spec:`.
-/

namespace Biscuit

/-- The sentinel origin id used for the authorizer: `usize::MAX`. -/
def authorizerId : Nat := 2 ^ 64 - 1

/-- Modelled from the spec: a Datalog term.  `Term` is a tagged value:
variables, integers, interned strings, dates, byte blobs, booleans and null.
(The collection values `Set`/`Array`/`Map` of the spec are ground values
compared structurally during matching; they play no role in the claims and
are omitted from the model.)  Parameters (`{p}` placeholders of the builder
API) are represented explicitly so that builder-time validation can be
stated. -/
inductive Term where
  | var (v : String)
  | int (i : Int)
  | str (s : String)
  | date (d : Nat)
  | bytes (b : List Nat)
  | boolean (b : Bool)
  | null
  | parameter (p : String)
deriving DecidableEq, Repr

/-- Modelled from the spec: a predicate `(name, terms)`. -/
structure Predicate where
  name : String
  terms : List Term
deriving DecidableEq, Repr

/-- Modelled from the spec: a fact is a ground predicate.  Groundness is a
separate predicate on `Fact` rather than a subtype, matching the source where
`Fact` wraps a `Predicate`. -/
abbrev Fact := Predicate

/-- A term is ground when it is neither a variable nor an unbound parameter. -/
def Term.isGround : Term → Bool
  | .var _ => false
  | .parameter _ => false
  | _ => true

/-- A predicate is ground when every term is ground. -/
def Predicate.isGround (p : Predicate) : Bool :=
  p.terms.all Term.isGround

/-- A term contains no `{p}` parameter placeholder. -/
def Term.noParameter : Term → Bool
  | .parameter _ => false
  | _ => true

/-- A predicate contains no parameter placeholder. -/
def Predicate.noParameter (p : Predicate) : Bool :=
  p.terms.all Term.noParameter

/-- Variable bindings produced while matching a rule body. -/
abbrev Subst := List (String × Term)

/-- Look up a variable in a substitution. -/
def Subst.find (s : Subst) (v : String) : Option Term :=
  match s with
  | [] => none
  | (w, t) :: rest => if w = v then some t else Subst.find rest v

/-- Modelled from the spec: matching one pattern term against one ground term
of a stored fact, extending the current bindings.  A variable binds (or must
agree with its previous binding); any other term must be equal. -/
def matchTerm (s : Subst) (pat : Term) (t : Term) : Option Subst :=
  match pat with
  | .var v =>
    match Subst.find s v with
    | some t' => if t = t' then some s else none
    | none => some ((v, t) :: s)
  | other => if other = t then some s else none

/-- Match the term lists of a pattern predicate and a fact, left to right. -/
def matchTerms (s : Subst) : List Term → List Term → Option Subst
  | [], [] => some s
  | pat :: pats, t :: ts =>
    match matchTerm s pat t with
    | some s' => matchTerms s' pats ts
    | none => none
  | _, _ => none

/-- Modelled from the spec: matching a body pattern against a stored fact. -/
def matchPredicate (s : Subst) (pat : Predicate) (f : Fact) : Option Subst :=
  if pat.name = f.name then matchTerms s pat.terms f.terms else none

/-- Apply a substitution to a term. -/
def Term.apply (s : Subst) : Term → Term
  | .var v =>
    match Subst.find s v with
    | some t => t
    | none => .var v
  | t => t

/-- Apply a substitution to a predicate. -/
def Predicate.apply (s : Subst) (p : Predicate) : Predicate :=
  { p with terms := p.terms.map (Term.apply s) }

/-- Modelled from the spec: binary expression operators (the fragment used by
rule bodies in the claims; the full operator table adds nothing to the claims
under verification). -/
inductive BinaryOp where
  | eq
  | lessThan
  | and
  | or
deriving DecidableEq, Repr

/-- Modelled from the spec: an expression tree over terms, evaluated under
the bindings of the body.  Type mismatches produce a well-defined error
(modelled as `none`) that fails the enclosing rule or check. -/
inductive Expression where
  | value (t : Term)
  | binary (op : BinaryOp) (l r : Expression)
deriving DecidableEq, Repr

/-- Modelled from the spec: expression evaluation with dynamic type checking
and short-circuit `&&` / `||`. -/
def Expression.eval (s : Subst) : Expression → Option Term
  | .value t => some (Term.apply s t)
  | .binary op l r =>
    match op, Expression.eval s l with
    | .and, some (.boolean false) => some (.boolean false)
    | .and, some (.boolean true) =>
      match Expression.eval s r with
      | some (.boolean b) => some (.boolean b)
      | _ => none
    | .or, some (.boolean true) => some (.boolean true)
    | .or, some (.boolean false) =>
      match Expression.eval s r with
      | some (.boolean b) => some (.boolean b)
      | _ => none
    | .eq, some tl =>
      match Expression.eval s r with
      | some tr => some (.boolean (tl = tr))
      | none => none
    | .lessThan, some (.int il) =>
      match Expression.eval s r with
      | some (.int ir) => some (.boolean (il < ir))
      | _ => none
    | _, _ => none

/-- All expressions of a rule evaluate to `true` under the bindings. -/
def evalExpressions (s : Subst) (es : List Expression) : Bool :=
  es.all fun e => Expression.eval s e = some (.boolean true)

/-- Modelled from the spec: a trust scope annotation,
`{Authority, Previous, PublicKey(pk)}` (public keys interned to ids). -/
inductive Scope where
  | authority
  | previous
  | publicKey (pk : Nat)
deriving DecidableEq, Repr

/-- Modelled from the spec: a rule `head :- body, expressions, scopes`. -/
structure DRule where
  head : Predicate
  body : List Predicate
  expressions : List Expression
  scopes : List Scope
deriving DecidableEq, Repr

/-- An origin: the set of block ids that produced a fact. -/
abbrev Origin := Finset Nat

/-- A set of block ids a rule is allowed to draw facts from. -/
abbrev TrustedOrigins := Finset Nat

/-- Modelled from the spec: `TrustedOrigins::default()` — the authorizer and
the authority block only, `{0, AUTHORIZER}`. -/
def TrustedOrigins.deflt : TrustedOrigins := {0, authorizerId}

/-- The index `public_key_to_block_id`: every block id whose
`external_key` equals the given key. -/
abbrev PkIndex := List (Nat × List Nat)

/-- Look up a public key id in the index. -/
def PkIndex.find (idx : PkIndex) (pk : Nat) : List Nat :=
  match idx with
  | [] => []
  | (k, ids) :: rest => if k = pk then ids else PkIndex.find rest pk

/-- Resolve one scope annotation into the accumulated origin set:
`Authority` adds `0`; `Previous` adds every id strictly below the current
block (nothing for authorizer rules); `PublicKey(pk)` adds every block id
carrying that external key. -/
def Scope.resolve (currentBlock : Nat) (idx : PkIndex) (acc : TrustedOrigins) :
    Scope → TrustedOrigins
  | .authority => insert 0 acc
  | .previous =>
    if currentBlock = authorizerId then acc else acc ∪ Finset.range currentBlock
  | .publicKey pk => acc ∪ (PkIndex.find idx pk).toFinset

/-- Modelled from the spec: `TrustedOrigins::from_scopes(scopes, default,
current_block, public_key_to_block_id)`.  With an empty scope list the
enclosing default applies, together with the current block and the
authorizer, which always trust themselves (this default-inclusion reading is
forced by the query documentation — an empty-scope query sees authorizer and
authority facts — and by the `authorizer_with_scopes` test).  With explicit
scopes the default is discarded and each annotation is resolved on top of
`{current_block, AUTHORIZER}`. -/
def TrustedOrigins.fromScopes (ruleScopes : List Scope)
    (defaultOrigins : TrustedOrigins) (currentBlock : Nat) (idx : PkIndex) :
    TrustedOrigins :=
  if ruleScopes.isEmpty then
    insert currentBlock (insert authorizerId defaultOrigins)
  else
    ruleScopes.foldl (Scope.resolve currentBlock idx)
      ({currentBlock, authorizerId} : Finset Nat)

/-- Modelled from the spec: the origin-tagged fact store,
a collection of facts each tagged with the origin set that produced it. -/
structure World where
  facts : List (Origin × Fact)
  iterations : Nat
deriving DecidableEq

/-- A fact is visible to a rule iff its origin set is a subset of the rule's
trusted origins. -/
def factVisible (trusted : TrustedOrigins) (o : Origin) : Bool :=
  o ⊆ trusted

/-- Extend one binding by matching one body atom against every visible fact. -/
def extendBinding (facts : List (Origin × Fact)) (trusted : TrustedOrigins)
    (pat : Predicate) (b : Subst × Origin) : List (Subst × Origin) :=
  facts.filterMap fun (fo, f) =>
    if factVisible trusted fo then
      match matchPredicate b.1 pat f with
      | some s' => some (s', b.2 ∪ fo)
      | none => none
    else none

/-- Modelled from the spec: joining a rule body against the visible facts is
a left-to-right variable-binding scan, atom order preserved.  Each produced
binding carries the union of the origins of the facts it consumed. -/
def matchBody (facts : List (Origin × Fact)) (trusted : TrustedOrigins)
    (body : List Predicate) : List (Subst × Origin) :=
  body.foldl
    (fun acc pat => acc.flatMap (extendBinding facts trusted pat))
    [([], ∅)]

/-- The per-origin result container of `query_rule`: a map from origin set to
a deduplicated set of facts, modelled as an association list with unique keys
and duplicate-free fact lists. -/
abbrev FactSet := List (Origin × List Fact)

/-- Insert one `(origin, fact)` result into a `FactSet`, deduplicating within
each origin. -/
def FactSet.insertFact (fs : FactSet) (o : Origin) (f : Fact) : FactSet :=
  match fs with
  | [] => [(o, [f])]
  | (o', l) :: rest =>
    if o' = o then (o', if f ∈ l then l else l ++ [f]) :: rest
    else (o', l) :: FactSet.insertFact rest o f

/-- The bindings of a rule body over the trusted facts that also satisfy
every expression of the rule. -/
def ruleBindings (w : World) (r : DRule) (trusted : TrustedOrigins) :
    List (Subst × Origin) :=
  (matchBody w.facts trusted r.body).filter fun (s, _) =>
    evalExpressions s r.expressions

/-- Modelled from the spec: `query_rule(rule, limit, trusted)` — one-shot
evaluation of a rule against the current store.  Bindings whose substituted
head is not ground produce no fact (the documented silent behaviour for
unbound head variables); each produced fact is tagged with the union of the
origins of the consumed facts.  The `limit` parameter of a one-shot
evaluation does not influence the result. -/
def World.queryRule (w : World) (r : DRule) (lim : Nat)
    (trusted : TrustedOrigins) : FactSet :=
  let _ := lim
  (ruleBindings w r trusted).foldl
    (fun fs (s, o) =>
      let h := Predicate.apply s r.head
      if h.isGround then FactSet.insertFact fs o h else fs)
    []

/-- Modelled from the spec: `query_match(query, limit, trusted) → bool` —
exists-binding: some binding of the body over the trusted facts satisfies
every expression. -/
def World.queryMatch (w : World) (r : DRule) (lim : Nat)
    (trusted : TrustedOrigins) : Bool :=
  let _ := lim
  ¬ (ruleBindings w r trusted).isEmpty

/-- Modelled from the spec: `query_match_all(query, trusted) → bool` —
universal: every binding of the body over the trusted facts satisfies every
expression; `true` on empty bindings. -/
def World.queryMatchAll (w : World) (r : DRule) (trusted : TrustedOrigins) :
    Bool :=
  (matchBody w.facts trusted r.body).all fun (s, _) =>
    evalExpressions s r.expressions

/-- `CheckKind`: `One`, `All`, `Reject`. -/
inductive CheckKind where
  | one
  | all
  | reject
deriving DecidableEq, Repr

/-- A check: a disjunction of rule-shaped queries plus a kind. -/
structure Check where
  queries : List DRule
  kind : CheckKind
deriving DecidableEq, Repr

/-- `PolicyKind`: `Allow` or `Deny`. -/
inductive PolicyKind where
  | allow
  | deny
deriving DecidableEq, Repr

/-- A policy: a disjunction of queries with an allow/deny kind. -/
structure TPolicy where
  queries : List DRule
  kind : PolicyKind
deriving DecidableEq, Repr

/-- The part of a token block the authorizer consults during
`authorize_inner`: its checks and its scope annotations. -/
structure Block where
  checks : List Check
  scopes : List Scope
deriving DecidableEq, Repr

/-- A failed check entry (`error::FailedCheck`).  The source stores the
printed text of the check; the model stores the check value it prints. -/
inductive FailedCheck where
  | authorizer (checkId : Nat) (rule : Check)
  | block (blockId : Nat) (checkId : Nat) (rule : Check)
deriving DecidableEq, Repr

/-- `error::MatchedPolicy`. -/
inductive MatchedPolicy where
  | allow (i : Nat)
  | deny (i : Nat)
deriving DecidableEq, Repr

/-- The error kinds of `error::Token` reachable from the authorizer entry
points under verification. -/
inductive TokenError where
  | runLimitTimeout
  | runLimitTooManyFacts
  | runLimitTooManyIterations
  | noMatchingPolicy (checks : List FailedCheck)
  | unauthorized (policy : MatchedPolicy) (checks : List FailedCheck)
  | languageParameters
deriving DecidableEq, Repr

/-- `RunLimits { max_facts, max_iterations, max_time }`; durations are
modelled as natural numbers of nanoseconds. -/
structure RunLimits where
  maxFacts : Nat
  maxIterations : Nat
  maxTime : Nat
deriving DecidableEq, Repr

/-- Modelled from the spec: the builder holding the authorizer's own facts,
rules, checks and scope annotations (`BlockBuilder`). -/
structure BlockBuilder where
  facts : List Fact
  rules : List DRule
  checks : List Check
  scopes : List Scope
deriving DecidableEq, Repr

/-- The authorizer state (`struct Authorizer`).  The symbol table is elided:
the model keeps strings directly, which is the inverse image of interning.
`execution_time : Option<Duration>` doubles as the engine-run cache flag. -/
structure Authorizer where
  authorizerBlockBuilder : BlockBuilder
  world : World
  tokenOrigins : TrustedOrigins
  policies : List TPolicy
  blocks : Option (List Block)
  publicKeyToBlockId : PkIndex
  limits : RunLimits
  executionTime : Option Nat
deriving DecidableEq

/-- An engine oracle standing for `World::run_with_limits` plus the wall
clock measuring it: given the world and limits it yields the saturated world
and the elapsed duration, or a run-limit error. -/
abbrev Engine := World → RunLimits → Except TokenError (World × Nat)

/-- `Authorizer::run`: reuse the cached execution time when present,
otherwise run the Datalog engine once and cache the elapsed time. -/
def Authorizer.run (engine : Engine) (a : Authorizer) :
    Except TokenError Nat × Authorizer :=
  match a.executionTime with
  | some t => (.ok t, a)
  | none =>
    match engine a.world a.limits with
    | .ok (w, dur) => (.ok dur, { a with world := w, executionTime := some dur })
    | .error e => (.error e, a)

/-- One check query's result, as computed by the `res = match check.kind`
block shared by the three check sites of `authorize_inner`: resolve the
query's trusted origins on top of the enclosing default, then evaluate
according to the check kind (`One` — exists, `All` — universal, `Reject` —
negated exists). -/
def queryRes (w : World) (kind : CheckKind) (defaultOrigins : TrustedOrigins)
    (currentBlock : Nat) (idx : PkIndex) (q : DRule) : Bool :=
  let trusted :=
    TrustedOrigins.fromScopes q.scopes defaultOrigins currentBlock idx
  match kind with
  | .one => w.queryMatch q currentBlock trusted
  | .all => w.queryMatchAll q trusted
  | .reject => ! w.queryMatch q currentBlock trusted

/-- Evaluate the queries of one check until one succeeds, exactly as the
per-check loop of `authorize_inner`: per query compute `res`, then test the
time budget (`clock k` is the value of the k-th `Instant::now()` call after
the start of `authorize_inner`), then stop successfully if `res` held. -/
def evalCheckQueries (w : World) (kind : CheckKind)
    (defaultOrigins : TrustedOrigins) (currentBlock : Nat) (idx : PkIndex)
    (timeLimit : Nat) (clock : Nat → Nat) :
    List DRule → Nat → Except TokenError (Bool × Nat)
  | [], k => .ok (false, k)
  | q :: qs, k =>
    let res := queryRes w kind defaultOrigins currentBlock idx q
    if timeLimit ≤ clock k then .error .runLimitTimeout
    else if res then .ok (true, k + 1)
    else evalCheckQueries w kind defaultOrigins currentBlock idx timeLimit clock
      qs (k + 1)

/-- Evaluate a list of checks of one site (authorizer, authority block or
attenuation block), appending one failure entry per unsuccessful check and
continuing with the remaining checks. -/
def evalChecks (w : World) (site : Nat → Check → FailedCheck)
    (defaultOrigins : TrustedOrigins) (currentBlock : Nat) (idx : PkIndex)
    (timeLimit : Nat) (clock : Nat → Nat) :
    List Check → Nat → Nat → List FailedCheck →
    Except TokenError (List FailedCheck × Nat)
  | [], _, k, errs => .ok (errs, k)
  | c :: cs, i, k, errs =>
    match evalCheckQueries w c.kind defaultOrigins currentBlock idx timeLimit
        clock c.queries k with
    | .error e => .error e
    | .ok (successful, k') =>
      evalChecks w site defaultOrigins currentBlock idx timeLimit clock cs
        (i + 1) k' (if successful then errs else errs ++ [site i c])

/-- Evaluate the queries of one policy until one matches, with the time
budget tested after every query (`'policies_test` loop body). -/
def evalPolicyQueries (w : World) (authorizerTrusted : TrustedOrigins)
    (idx : PkIndex) (timeLimit : Nat) (clock : Nat → Nat) :
    List DRule → Nat → Except TokenError (Bool × Nat)
  | [], k => .ok (false, k)
  | q :: qs, k =>
    let trusted :=
      TrustedOrigins.fromScopes q.scopes authorizerTrusted authorizerId idx
    let res := w.queryMatch q authorizerId trusted
    if timeLimit ≤ clock k then .error .runLimitTimeout
    else if res then .ok (true, k + 1)
    else evalPolicyQueries w authorizerTrusted idx timeLimit clock qs (k + 1)

/-- Evaluate policies in declaration order, stopping at the first policy one
of whose queries matches and recording its kind and index. -/
def evalPolicies (w : World) (authorizerTrusted : TrustedOrigins)
    (idx : PkIndex) (timeLimit : Nat) (clock : Nat → Nat) :
    List TPolicy → Nat → Nat → Except TokenError (Option MatchedPolicy × Nat)
  | [], _, k => .ok (none, k)
  | p :: ps, i, k =>
    match evalPolicyQueries w authorizerTrusted idx timeLimit clock
        p.queries k with
    | .error e => .error e
    | .ok (true, k') =>
      .ok (some (match p.kind with
        | .allow => .allow i
        | .deny => .deny i), k')
    | .ok (false, k') =>
      evalPolicies w authorizerTrusted idx timeLimit clock ps (i + 1) k'

/-- Evaluate the checks of the attenuation blocks `1..n-1`: block `i + 1`
resolves its default trusted origins from its own scopes with current block
id `i + 1` over `TrustedOrigins::default()`. -/
def evalBlocksChecks (w : World) (idx : PkIndex) (timeLimit : Nat)
    (clock : Nat → Nat) :
    List Block → Nat → Nat → List FailedCheck →
    Except TokenError (List FailedCheck × Nat)
  | [], _, k, errs => .ok (errs, k)
  | b :: bs, i, k, errs =>
    let blockTrusted :=
      TrustedOrigins.fromScopes b.scopes TrustedOrigins.deflt (i + 1) idx
    match evalChecks w (fun j c => .block (i + 1) j c) blockTrusted (i + 1)
        idx timeLimit clock b.checks 0 k errs with
    | .error e => .error e
    | .ok (errs', k') => evalBlocksChecks w idx timeLimit clock bs (i + 1) k' errs'

/-- `Authorizer::authorize_inner`: evaluate authorizer checks, authority
block checks, policies (first match wins), attenuation block checks, then
apply the decision table.  `clock` gives the successive `Instant::now()`
readings, `start` the reading taken on entry. -/
def Authorizer.authorizeInner (a : Authorizer) (clock : Nat → Nat)
    (start : Nat) (limits : RunLimits) : Except TokenError Nat :=
  let timeLimit := start + limits.maxTime
  let idx := a.publicKeyToBlockId
  let authorizerTrusted := TrustedOrigins.fromScopes
    a.authorizerBlockBuilder.scopes TrustedOrigins.deflt authorizerId idx
  match evalChecks a.world (fun i c => .authorizer i c) authorizerTrusted
      authorizerId idx timeLimit clock a.authorizerBlockBuilder.checks
      0 0 [] with
  | .error e => .error e
  | .ok (errs, k) =>
    let afterAuthority : Except TokenError (List FailedCheck × Nat) :=
      match a.blocks with
      | none => .ok (errs, k)
      | some [] => .ok (errs, k)
      | some (b0 :: _) =>
        let authorityTrusted :=
          TrustedOrigins.fromScopes b0.scopes TrustedOrigins.deflt 0 idx
        evalChecks a.world (fun j c => .block 0 j c) authorityTrusted 0 idx
          timeLimit clock b0.checks 0 k errs
    match afterAuthority with
    | .error e => .error e
    | .ok (errs, k) =>
      match evalPolicies a.world authorizerTrusted idx timeLimit clock
          a.policies 0 k with
      | .error e => .error e
      | .ok (policyResult, k) =>
        let afterBlocks : Except TokenError (List FailedCheck × Nat) :=
          match a.blocks with
          | none => .ok (errs, k)
          | some [] => .ok (errs, k)
          | some (_ :: rest) =>
            evalBlocksChecks a.world idx timeLimit clock rest 0 k errs
        match afterBlocks with
        | .error e => .error e
        | .ok (errs, _) =>
          match policyResult, errs.isEmpty with
          | some (.allow i), true => .ok i
          | none, _ => .error (.noMatchingPolicy errs)
          | some (.allow i), false => .error (.unauthorized (.allow i) errs)
          | some (.deny i), _ => .error (.unauthorized (.deny i) errs)

/-- `Authorizer::query_inner`: resolve the query's trusted origins over
`TrustedOrigins::default()` (queries do not default to the authorizer's
trust), run `query_rule` with the hardcoded parameter `usize::MAX`, and
flatten the per-origin result sets.  The `_limits` argument is unused,
exactly as in the source. -/
def Authorizer.queryInner (a : Authorizer) (rule : DRule)
    (_limits : RunLimits) : List Fact :=
  let ruleTrustedOrigins := TrustedOrigins.fromScopes rule.scopes
    TrustedOrigins.deflt authorizerId a.publicKeyToBlockId
  let res := a.world.queryRule rule authorizerId ruleTrustedOrigins
  res.flatMap fun p => p.2

/-- `Authorizer::query_all_inner`: an empty-scope query trusts the token's
full origin set; otherwise scopes resolve as for `query`.  `query_rule` is
invoked with the hardcoded parameter `0` and the matching facts are
collected into a set (duplicates across origins collapse).  The `_limits`
argument is unused, exactly as in the source. -/
def Authorizer.queryAllInner (a : Authorizer) (rule : DRule)
    (_limits : RunLimits) : List Fact :=
  let ruleTrustedOrigins :=
    if rule.scopes.isEmpty then a.tokenOrigins
    else TrustedOrigins.fromScopes rule.scopes TrustedOrigins.deflt
      authorizerId a.publicKeyToBlockId
  let res := a.world.queryRule rule 0 ruleTrustedOrigins
  (res.flatMap fun p => p.2).dedup

/-- `Authorizer::query_with_limits`: run (or reuse) the engine, evaluate the
query, and add the inner elapsed time (`qElapsed`) to the stored execution
time. -/
def Authorizer.queryWithLimits (engine : Engine) (qElapsed : Nat)
    (rule : DRule) (limits : RunLimits) (a : Authorizer) :
    Except TokenError (List Fact) × Authorizer :=
  match a.run engine with
  | (.error e, a') => (.error e, a')
  | (.ok executionTime, a') =>
    let result := a'.queryInner rule limits
    (.ok result, { a' with executionTime := some (qElapsed + executionTime) })

/-- `Authorizer::query`: deduct the already-performed iterations and the
already-elapsed execution time from the authorizer's limits, failing with
`RunLimit(Timeout)` when the elapsed time already reaches `max_time`. -/
def Authorizer.query (engine : Engine) (qElapsed : Nat) (rule : DRule)
    (a : Authorizer) : Except TokenError (List Fact) × Authorizer :=
  match a.run engine with
  | (.error e, a') => (.error e, a')
  | (.ok executionTime, a') =>
    let limits := { a'.limits with
      maxIterations := a'.limits.maxIterations - a'.world.iterations }
    if limits.maxTime ≤ executionTime then (.error .runLimitTimeout, a')
    else
      let limits := { limits with maxTime := limits.maxTime - executionTime }
      a'.queryWithLimits engine qElapsed rule limits

/-- `Authorizer::query_all_with_limits`. -/
def Authorizer.queryAllWithLimits (engine : Engine) (qElapsed : Nat)
    (rule : DRule) (limits : RunLimits) (a : Authorizer) :
    Except TokenError (List Fact) × Authorizer :=
  match a.run engine with
  | (.error e, a') => (.error e, a')
  | (.ok executionTime, a') =>
    let result := a'.queryAllInner rule limits
    (.ok result, { a' with executionTime := some (executionTime + qElapsed) })

/-- `Authorizer::query_all`: same budget deduction as `query`. -/
def Authorizer.queryAll (engine : Engine) (qElapsed : Nat) (rule : DRule)
    (a : Authorizer) : Except TokenError (List Fact) × Authorizer :=
  match a.run engine with
  | (.error e, a') => (.error e, a')
  | (.ok executionTime, a') =>
    let limits := { a'.limits with
      maxIterations := a'.limits.maxIterations - a'.world.iterations }
    if limits.maxTime ≤ executionTime then (.error .runLimitTimeout, a')
    else
      let limits := { limits with maxTime := limits.maxTime - executionTime }
      a'.queryAllWithLimits engine qElapsed rule limits

/-- `Authorizer::authorize_with_limits`: run (or reuse) the engine, evaluate
checks and policies, and add the inner elapsed time to the stored execution
time (the source updates the stored time before propagating the result). -/
def Authorizer.authorizeWithLimits (engine : Engine) (clock : Nat → Nat)
    (start : Nat) (aElapsed : Nat) (limits : RunLimits) (a : Authorizer) :
    Except TokenError Nat × Authorizer :=
  match a.run engine with
  | (.error e, a') => (.error e, a')
  | (.ok executionTime, a') =>
    let result := a'.authorizeInner clock start limits
    (result, { a' with executionTime := some (executionTime + aElapsed) })

/-- `Authorizer::authorize`: same budget deduction as `query`. -/
def Authorizer.authorize (engine : Engine) (clock : Nat → Nat) (start : Nat)
    (aElapsed : Nat) (a : Authorizer) : Except TokenError Nat × Authorizer :=
  match a.run engine with
  | (.error e, a') => (.error e, a')
  | (.ok executionTime, a') =>
    let limits := { a'.limits with
      maxIterations := a'.limits.maxIterations - a'.world.iterations }
    if limits.maxTime ≤ executionTime then (.error .runLimitTimeout, a')
    else
      let limits := { limits with maxTime := limits.maxTime - executionTime }
      a'.authorizeWithLimits engine clock start aElapsed limits

/-- An expression contains no parameter placeholder. -/
def Expression.noParameter : Expression → Bool
  | .value t => t.noParameter
  | .binary _ l r => l.noParameter && r.noParameter

/-- A rule contains no parameter placeholder (all `{p}` were substituted). -/
def DRule.noParameter (r : DRule) : Bool :=
  r.head.noParameter && r.body.all Predicate.noParameter &&
    r.expressions.all Expression.noParameter

/-- A check contains no parameter placeholder. -/
def Check.noParameter (c : Check) : Bool :=
  c.queries.all DRule.noParameter

/-- Modelled from the spec: `BlockBuilder::fact` — an unbound `{p}`
placeholder is refused at build time with a parameter error. -/
def BlockBuilder.fact (b : BlockBuilder) (f : Fact) :
    Except TokenError BlockBuilder :=
  if f.noParameter then .ok { b with facts := b.facts ++ [f] }
  else .error .languageParameters

/-- Modelled from the spec: `BlockBuilder::rule` — same parameter
validation. -/
def BlockBuilder.rule (b : BlockBuilder) (r : DRule) :
    Except TokenError BlockBuilder :=
  if r.noParameter then .ok { b with rules := b.rules ++ [r] }
  else .error .languageParameters

/-- Modelled from the spec: `BlockBuilder::check` — same parameter
validation. -/
def BlockBuilder.check (b : BlockBuilder) (c : Check) :
    Except TokenError BlockBuilder :=
  if c.noParameter then .ok { b with checks := b.checks ++ [c] }
  else .error .languageParameters

/-- Modelled from the spec: `RunLimits::default()`. -/
def RunLimits.deflt : RunLimits :=
  { maxFacts := 1000, maxIterations := 100, maxTime := 1000000 }

/-- `Authorizer::new`: an empty authorizer. -/
def Authorizer.new : Authorizer :=
  { authorizerBlockBuilder := { facts := [], rules := [], checks := [], scopes := [] }
    world := { facts := [], iterations := 0 }
    tokenOrigins := TrustedOrigins.deflt
    policies := []
    blocks := none
    publicKeyToBlockId := []
    limits := RunLimits.deflt
    executionTime := none }

/-- Modelled from the spec: the schema version constant
`MAX_SCHEMA_VERSION`. -/
def maxSchemaVersion : Nat := 6

/-- The `AuthorizerPolicies` save container: a schema version plus the
authorizer-local facts, rules, checks and policies. -/
structure AuthorizerPolicies where
  version : Nat
  facts : List Fact
  rules : List DRule
  checks : List Check
  policies : List TPolicy
deriving DecidableEq, Repr

/-- `Authorizer::save`: capture the authorizer-local facts, rules and checks
(from the builder; never token-derived data from the world) and the
policies, stamped with `MAX_SCHEMA_VERSION`. -/
def Authorizer.save (a : Authorizer) : AuthorizerPolicies :=
  { version := maxSchemaVersion
    facts := a.authorizerBlockBuilder.facts
    rules := a.authorizerBlockBuilder.rules
    checks := a.authorizerBlockBuilder.checks
    policies := a.policies }

/-- `TryFrom<AuthorizerPolicies> for Authorizer`: destructure the container
(discarding `version`), start from an empty authorizer and insert every
fact, rule and check through the validating builder methods, then push every
policy. -/
def Authorizer.tryFrom (ap : AuthorizerPolicies) :
    Except TokenError Authorizer := do
  let a := Authorizer.new
  let b := a.authorizerBlockBuilder
  let b ← ap.facts.foldlM BlockBuilder.fact b
  let b ← ap.rules.foldlM BlockBuilder.rule b
  let b ← ap.checks.foldlM BlockBuilder.check b
  pure { a with
    authorizerBlockBuilder := b
    policies := a.policies ++ ap.policies }

/-- Modelled from the spec: the save container serializes through a
deterministic, length-prefixed encoding (the schema-defined wire format);
the model encodes to a stream of naturals. -/
def encodeString (s : String) : List Nat :=
  s.data.length :: s.data.map Char.toNat

/-- Decode a run of character codes of known length. -/
def decodeChars : Nat → List Nat → Option (List Char × List Nat)
  | 0, rest => some ([], rest)
  | _ + 1, [] => none
  | n + 1, c :: rest =>
    match decodeChars n rest with
    | some (cs, r) => some (Char.ofNat c :: cs, r)
    | none => none

/-- Decode a length-prefixed string. -/
def decodeString : List Nat → Option (String × List Nat)
  | [] => none
  | n :: rest =>
    match decodeChars n rest with
    | some (cs, r) => some (String.mk cs, r)
    | none => none

/-- Decode a run of naturals of known length. -/
def decodeNats : Nat → List Nat → Option (List Nat × List Nat)
  | 0, rest => some ([], rest)
  | _ + 1, [] => none
  | n + 1, c :: rest =>
    match decodeNats n rest with
    | some (cs, r) => some (c :: cs, r)
    | none => none

/-- Sign-and-magnitude integer encoding. -/
def encodeInt (i : Int) : List Nat :=
  if i < 0 then [1, (-i).toNat] else [0, i.toNat]

/-- Decode a sign-and-magnitude integer. -/
def decodeInt : List Nat → Option (Int × List Nat)
  | 0 :: m :: rest => some ((m : Int), rest)
  | 1 :: m :: rest => some (-(m : Int), rest)
  | _ => none

/-- Length-prefixed list encoding. -/
def encodeListN (enc : α → List Nat) (l : List α) : List Nat :=
  l.length :: l.flatMap enc

/-- Decode a known number of consecutive items. -/
def decodeItems (dec : List Nat → Option (α × List Nat)) :
    Nat → List Nat → Option (List α × List Nat)
  | 0, rest => some ([], rest)
  | n + 1, rest =>
    match dec rest with
    | some (a, r) =>
      match decodeItems dec n r with
      | some (as, r') => some (a :: as, r')
      | none => none
    | none => none

/-- Decode a length-prefixed list. -/
def decodeListN (dec : List Nat → Option (α × List Nat)) :
    List Nat → Option (List α × List Nat)
  | [] => none
  | n :: rest => decodeItems dec n rest

/-- Tagged term encoding. -/
def encodeTerm : Term → List Nat
  | .var v => 0 :: encodeString v
  | .int i => 1 :: encodeInt i
  | .str s => 2 :: encodeString s
  | .date d => [3, d]
  | .bytes b => 4 :: b.length :: b
  | .boolean b => [5, cond b 1 0]
  | .null => [6]
  | .parameter p => 7 :: encodeString p

/-- Decode a tagged term. -/
def decodeTerm : List Nat → Option (Term × List Nat)
  | 0 :: rest =>
    match decodeString rest with
    | some (v, r) => some (.var v, r)
    | none => none
  | 1 :: rest =>
    match decodeInt rest with
    | some (i, r) => some (.int i, r)
    | none => none
  | 2 :: rest =>
    match decodeString rest with
    | some (s, r) => some (.str s, r)
    | none => none
  | 3 :: d :: rest => some (.date d, rest)
  | 4 :: n :: rest =>
    match decodeNats n rest with
    | some (b, r) => some (.bytes b, r)
    | none => none
  | 5 :: 0 :: rest => some (.boolean false, rest)
  | 5 :: 1 :: rest => some (.boolean true, rest)
  | 6 :: rest => some (.null, rest)
  | 7 :: rest =>
    match decodeString rest with
    | some (p, r) => some (.parameter p, r)
    | none => none
  | _ => none

/-- Predicate encoding: name then terms. -/
def encodePredicate (p : Predicate) : List Nat :=
  encodeString p.name ++ encodeListN encodeTerm p.terms

/-- Decode a predicate. -/
def decodePredicate (l : List Nat) : Option (Predicate × List Nat) :=
  match decodeString l with
  | some (name, r) =>
    match decodeListN decodeTerm r with
    | some (terms, r') => some ({ name := name, terms := terms }, r')
    | none => none
  | none => none

/-- Binary operator tags. -/
def encodeBinaryOp : BinaryOp → Nat
  | .eq => 0
  | .lessThan => 1
  | .and => 2
  | .or => 3

/-- Decode a binary operator tag. -/
def decodeBinaryOp : Nat → Option BinaryOp
  | 0 => some .eq
  | 1 => some .lessThan
  | 2 => some .and
  | 3 => some .or
  | _ => none

/-- Expression tree size, used as decoding fuel. -/
def Expression.depth : Expression → Nat
  | .value _ => 1
  | .binary _ l r => 1 + l.depth + r.depth

/-- Tagged expression encoding (tree in prefix order). -/
def encodeExpression : Expression → List Nat
  | .value t => 0 :: encodeTerm t
  | .binary op l r =>
    1 :: encodeBinaryOp op :: (encodeExpression l ++ encodeExpression r)

/-- Decode an expression with explicit fuel. -/
def decodeExpression : Nat → List Nat → Option (Expression × List Nat)
  | 0, _ => none
  | _ + 1, 0 :: rest =>
    match decodeTerm rest with
    | some (t, r) => some (.value t, r)
    | none => none
  | fuel + 1, 1 :: op :: rest =>
    match decodeBinaryOp op with
    | some o =>
      match decodeExpression fuel rest with
      | some (l, r1) =>
        match decodeExpression fuel r1 with
        | some (rr, r2) => some (.binary o l rr, r2)
        | none => none
      | none => none
    | none => none
  | _, _ => none

/-- Expression encoding prefixed with its depth, so decoding needs no
external fuel. -/
def encodeExpressionTop (e : Expression) : List Nat :=
  e.depth :: encodeExpression e

/-- Decode a depth-prefixed expression. -/
def decodeExpressionTop : List Nat → Option (Expression × List Nat)
  | [] => none
  | d :: rest => decodeExpression d rest

/-- Tagged scope encoding. -/
def encodeScope : Scope → List Nat
  | .authority => [0]
  | .previous => [1]
  | .publicKey pk => [2, pk]

/-- Decode a scope. -/
def decodeScope : List Nat → Option (Scope × List Nat)
  | 0 :: rest => some (.authority, rest)
  | 1 :: rest => some (.previous, rest)
  | 2 :: pk :: rest => some (.publicKey pk, rest)
  | _ => none

/-- Rule encoding: head, body, expressions, scopes. -/
def encodeDRule (r : DRule) : List Nat :=
  encodePredicate r.head ++ encodeListN encodePredicate r.body ++
    encodeListN encodeExpressionTop r.expressions ++
    encodeListN encodeScope r.scopes

/-- Decode a rule. -/
def decodeDRule (l : List Nat) : Option (DRule × List Nat) :=
  match decodePredicate l with
  | some (head, r0) =>
    match decodeListN decodePredicate r0 with
    | some (body, r1) =>
      match decodeListN decodeExpressionTop r1 with
      | some (exprs, r2) =>
        match decodeListN decodeScope r2 with
        | some (scopes, r3) =>
          some ({ head := head, body := body, expressions := exprs,
                  scopes := scopes }, r3)
        | none => none
      | none => none
    | none => none
  | none => none

/-- Check kind tags. -/
def encodeCheckKind : CheckKind → Nat
  | .one => 0
  | .all => 1
  | .reject => 2

/-- Decode a check kind. -/
def decodeCheckKind : Nat → Option CheckKind
  | 0 => some .one
  | 1 => some .all
  | 2 => some .reject
  | _ => none

/-- Check encoding: kind tag then queries. -/
def encodeCheck (c : Check) : List Nat :=
  encodeCheckKind c.kind :: encodeListN encodeDRule c.queries

/-- Decode a check. -/
def decodeCheck : List Nat → Option (Check × List Nat)
  | [] => none
  | k :: rest =>
    match decodeCheckKind k with
    | some kind =>
      match decodeListN decodeDRule rest with
      | some (queries, r) => some ({ queries := queries, kind := kind }, r)
      | none => none
    | none => none

/-- Policy kind tags. -/
def encodePolicyKind : PolicyKind → Nat
  | .allow => 0
  | .deny => 1

/-- Decode a policy kind. -/
def decodePolicyKind : Nat → Option PolicyKind
  | 0 => some .allow
  | 1 => some .deny
  | _ => none

/-- Policy encoding: kind tag then queries. -/
def encodeTPolicy (p : TPolicy) : List Nat :=
  encodePolicyKind p.kind :: encodeListN encodeDRule p.queries

/-- Decode a policy. -/
def decodeTPolicy : List Nat → Option (TPolicy × List Nat)
  | [] => none
  | k :: rest =>
    match decodePolicyKind k with
    | some kind =>
      match decodeListN decodeDRule rest with
      | some (queries, r) => some ({ queries := queries, kind := kind }, r)
      | none => none
    | none => none

/-- `AuthorizerPolicies::serialize`: version, facts, rules, checks,
policies, in a deterministic length-prefixed stream. -/
def AuthorizerPolicies.serialize (ap : AuthorizerPolicies) : List Nat :=
  ap.version :: (encodeListN encodePredicate ap.facts ++
    encodeListN encodeDRule ap.rules ++ encodeListN encodeCheck ap.checks ++
    encodeListN encodeTPolicy ap.policies)

/-- `AuthorizerPolicies::deserialize`: parse the stream back, refusing
trailing garbage. -/
def AuthorizerPolicies.deserialize (l : List Nat) :
    Option AuthorizerPolicies :=
  match l with
  | [] => none
  | v :: rest =>
    match decodeListN decodePredicate rest with
    | some (facts, r0) =>
      match decodeListN decodeDRule r0 with
      | some (rules, r1) =>
        match decodeListN decodeCheck r1 with
        | some (checks, r2) =>
          match decodeListN decodeTPolicy r2 with
          | some (policies, r3) =>
            if r3.isEmpty then
              some { version := v, facts := facts, rules := rules,
                     checks := checks, policies := policies }
            else none
          | none => none
        | none => none
      | none => none
    | none => none

/-- A check succeeds when some of its queries yields `res = true`. -/
def checkSucceeds (w : World) (defaultOrigins : TrustedOrigins)
    (currentBlock : Nat) (idx : PkIndex) (c : Check) : Bool :=
  c.queries.any (queryRes w c.kind defaultOrigins currentBlock idx)

/-- The failed-check entries produced by one site's check list, starting at
check index `i`: one entry per unsuccessful check, in declaration order. -/
def siteFailuresFrom (w : World) (defaultOrigins : TrustedOrigins)
    (currentBlock : Nat) (idx : PkIndex) (site : Nat → Check → FailedCheck) :
    List Check → Nat → List FailedCheck
  | [], _ => []
  | c :: cs, i =>
    (if checkSucceeds w defaultOrigins currentBlock idx c then []
     else [site i c]) ++
      siteFailuresFrom w defaultOrigins currentBlock idx site cs (i + 1)

/-- A policy matches when some of its queries matches under the authorizer's
trusted origins. -/
def policyMatches (w : World) (authorizerTrusted : TrustedOrigins)
    (idx : PkIndex) (p : TPolicy) : Bool :=
  p.queries.any fun q =>
    w.queryMatch q authorizerId
      (TrustedOrigins.fromScopes q.scopes authorizerTrusted authorizerId idx)

/-- The first matching policy from index `i` on, with its kind. -/
def firstMatchingPolicyFrom (w : World) (authorizerTrusted : TrustedOrigins)
    (idx : PkIndex) : List TPolicy → Nat → Option MatchedPolicy
  | [], _ => none
  | p :: ps, i =>
    if policyMatches w authorizerTrusted idx p then
      some (match p.kind with
        | .allow => .allow i
        | .deny => .deny i)
    else firstMatchingPolicyFrom w authorizerTrusted idx ps (i + 1)

/-- The authorizer's own trusted origins, from the builder's scopes. -/
def Authorizer.authorizerTrusted (a : Authorizer) : TrustedOrigins :=
  TrustedOrigins.fromScopes a.authorizerBlockBuilder.scopes
    TrustedOrigins.deflt authorizerId a.publicKeyToBlockId

/-- The failed authorizer checks, in declaration order. -/
def Authorizer.specAuthorizerFailures (a : Authorizer) : List FailedCheck :=
  siteFailuresFrom a.world a.authorizerTrusted authorizerId
    a.publicKeyToBlockId (fun i c => .authorizer i c)
    a.authorizerBlockBuilder.checks 0

/-- The failed authority-block (block 0) checks, in declaration order. -/
def Authorizer.specAuthorityFailures (a : Authorizer) : List FailedCheck :=
  match a.blocks with
  | none => []
  | some [] => []
  | some (b0 :: _) =>
    siteFailuresFrom a.world
      (TrustedOrigins.fromScopes b0.scopes TrustedOrigins.deflt 0
        a.publicKeyToBlockId)
      0 a.publicKeyToBlockId (fun j c => .block 0 j c) b0.checks 0

/-- The failed checks of the attenuation blocks from position `i` (block id
`i + 1`) on, in block order. -/
def attenuationFailuresFrom (w : World) (idx : PkIndex) :
    List Block → Nat → List FailedCheck
  | [], _ => []
  | b :: bs, i =>
    siteFailuresFrom w
      (TrustedOrigins.fromScopes b.scopes TrustedOrigins.deflt (i + 1) idx)
      (i + 1) idx (fun j c => .block (i + 1) j c) b.checks 0 ++
      attenuationFailuresFrom w idx bs (i + 1)

/-- The failed attenuation-block checks, in block order. -/
def Authorizer.specAttenuationFailures (a : Authorizer) : List FailedCheck :=
  match a.blocks with
  | none => []
  | some [] => []
  | some (_ :: rest) =>
    attenuationFailuresFrom a.world a.publicKeyToBlockId rest 0

/-- The complete failed-check list accumulated by `authorize_inner`:
authorizer checks, then authority-block checks, then attenuation-block
checks. -/
def Authorizer.specFailedChecks (a : Authorizer) : List FailedCheck :=
  a.specAuthorizerFailures ++
    (a.specAuthorityFailures ++ a.specAttenuationFailures)

/-- The policy decision of `authorize_inner`: the first matching policy. -/
def Authorizer.specPolicyResult (a : Authorizer) : Option MatchedPolicy :=
  firstMatchingPolicyFrom a.world a.authorizerTrusted a.publicKeyToBlockId
    a.policies 0

/-- Extract the failed-check list reported by a logic error. -/
def TokenError.getFailedChecks : TokenError → Option (List FailedCheck)
  | .noMatchingPolicy checks => some checks
  | .unauthorized _ checks => some checks
  | _ => none

/-- The body-less query with expression `true` (`allow if true`,
`check if true`). -/
def trueRule : DRule :=
  { head := { name := "query", terms := [] }
    body := []
    expressions := [Expression.value (Term.boolean true)]
    scopes := [] }

/-- The policy `allow if true`. -/
def allowTruePolicy : TPolicy := { queries := [trueRule], kind := .allow }

/-- An unauthenticated authorizer with the single policy `allow if true`. -/
def exAllow : Authorizer := { Authorizer.new with policies := [allowTruePolicy] }

/-- The fact `p()`. -/
def pFact : Fact := { name := "p", terms := [] }

/-- A world holding the single authority fact `p()`. -/
def wP : World := { facts := [(({0} : Finset Nat), pFact)], iterations := 1 }

/-- The query `query() <- p()`. -/
def qP : DRule :=
  { head := { name := "query", terms := [] }
    body := [{ name := "p", terms := [] }]
    expressions := []
    scopes := [] }

/-- The query `query() <- r()` (no `r` fact exists in `wP`). -/
def qR : DRule :=
  { head := { name := "query", terms := [] }
    body := [{ name := "r", terms := [] }]
    expressions := []
    scopes := [] }

/-- A `Reject` check with two queries, the first of which matches in `wP`. -/
def rejectTwo : Check := { queries := [qP, qR], kind := .reject }

/-- A `One` check whose single query never matches (no `r` fact). -/
def failCheck : Check := { queries := [qR], kind := .one }

/-- An authorizer with one failing check and no policies. -/
def exFailingCheck : Authorizer :=
  { Authorizer.new with
    authorizerBlockBuilder :=
      { facts := [], rules := [], checks := [failCheck], scopes := [] } }

/-- An authorizer whose engine has already run (cached execution time 5). -/
def exCached : Authorizer := { exAllow with executionTime := some 5 }

/-- An engine oracle that returns the world unchanged in zero time. -/
def idEngine : Engine := fun w _ => .ok (w, 0)

/-- A `One` check `check if p()` with no scope annotation. -/
def pCheck : Check := { queries := [qP], kind := .one }

/-- A token with an empty authority block and an attenuation block 1 whose
only check is `check if p()`; the only fact, `p()`, carries origin `{0}`. -/
def exAttenuation : Authorizer :=
  { Authorizer.new with
    world := wP
    tokenOrigins := ({0, 1, authorizerId} : Finset Nat)
    blocks := some [{ checks := [], scopes := [] },
                    { checks := [pCheck], scopes := [] }]
    policies := [allowTruePolicy] }

/-- The authority fact `right("read")` of scenario S3. -/
def rightFact : Fact := { name := "right", terms := [.str "read"] }

/-- The third-party fact `group("admin")` of scenario S3. -/
def groupFact : Fact := { name := "group", terms := [.str "admin"] }

/-- The evaluated world of scenario S3: `right("read")` from the authority
block, `group("admin")` from the third-party block 1. -/
def s3World : World :=
  { facts := [(({0} : Finset Nat), rightFact), (({1} : Finset Nat), groupFact)]
    iterations := 1 }

/-- The authorizer of scenario S3 after evaluation: token origins
`{0, 1, AUTHORIZER}`, third-party key interned as `1` mapping to block 1. -/
def s3Authorizer : Authorizer :=
  { Authorizer.new with
    world := s3World
    tokenOrigins := ({0, 1, authorizerId} : Finset Nat)
    blocks := some [{ checks := [], scopes := [] },
                    { checks := [], scopes := [] }]
    publicKeyToBlockId := [(1, [1])]
    policies := [allowTruePolicy]
    executionTime := some 0 }

/-- The query `g($x) <- group($x)` of scenario S4. -/
def gRule : DRule :=
  { head := { name := "g", terms := [.var "x"] }
    body := [{ name := "group", terms := [.var "x"] }]
    expressions := []
    scopes := [] }

/-- The fact `g("admin")`. -/
def gAdmin : Fact := { name := "g", terms := [.str "admin"] }

/-- An authorizer with authorizer-local content of every kind, for the
save/load round-trip. -/
def exSaveLoad : Authorizer :=
  { Authorizer.new with
    authorizerBlockBuilder :=
      { facts := [pFact], rules := [gRule], checks := [pCheck], scopes := [] }
    world := wP
    policies := [allowTruePolicy] }

/-- Equality of `Except` results is decidable componentwise. -/
instance {ε α : Type} [DecidableEq ε] [DecidableEq α] :
    DecidableEq (Except ε α) := fun a b =>
  match a, b with
  | .ok x, .ok y =>
    if h : x = y then .isTrue (by rw [h]) else .isFalse (by simp [h])
  | .error e, .error e' =>
    if h : e = e' then .isTrue (by rw [h]) else .isFalse (by simp [h])
  | .ok _, .error _ => .isFalse (by simp)
  | .error _, .ok _ => .isFalse (by simp)

theorem evalCheckQueries_spec (w : World) (kind : CheckKind)
    (d : TrustedOrigins) (cb : Nat) (idx : PkIndex) (tl : Nat)
    (clock : Nat → Nat) (H : ∀ j, clock j < tl) :
    ∀ (qs : List DRule) (k : Nat), ∃ k',
      evalCheckQueries w kind d cb idx tl clock qs k =
        .ok (qs.any (queryRes w kind d cb idx), k') := by
  intro qs
  induction qs with
  | nil => exact fun k => ⟨k, rfl⟩
  | cons q qs ih =>
    intro k
    have hnt : ¬ tl ≤ clock k := not_le.mpr (H k)
    by_cases hres : queryRes w kind d cb idx q
    · exact ⟨k + 1, by simp [evalCheckQueries, hnt, hres]⟩
    · obtain ⟨k', hk'⟩ := ih (k + 1)
      exact ⟨k', by simp [evalCheckQueries, hnt, hres, hk']⟩

theorem evalChecks_spec (w : World) (site : Nat → Check → FailedCheck)
    (d : TrustedOrigins) (cb : Nat) (idx : PkIndex) (tl : Nat)
    (clock : Nat → Nat) (H : ∀ j, clock j < tl) :
    ∀ (cs : List Check) (i k : Nat) (errs : List FailedCheck), ∃ k',
      evalChecks w site d cb idx tl clock cs i k errs =
        .ok (errs ++ siteFailuresFrom w d cb idx site cs i, k') := by
  intro cs
  induction cs with
  | nil => exact fun i k errs => ⟨k, by simp [evalChecks, siteFailuresFrom]⟩
  | cons c cs ih =>
    intro i k errs
    obtain ⟨k1, h1⟩ :=
      evalCheckQueries_spec w c.kind d cb idx tl clock H c.queries k
    obtain ⟨k2, h2⟩ := ih (i + 1) k1
      (if c.queries.any (queryRes w c.kind d cb idx) then errs
       else errs ++ [site i c])
    refine ⟨k2, ?_⟩
    simp only [evalChecks, h1, h2, siteFailuresFrom, checkSucceeds]
    by_cases hs : c.queries.any (queryRes w c.kind d cb idx) <;>
      simp [hs, List.append_assoc]

theorem evalPolicyQueries_spec (w : World) (t : TrustedOrigins)
    (idx : PkIndex) (tl : Nat) (clock : Nat → Nat) (H : ∀ j, clock j < tl) :
    ∀ (qs : List DRule) (k : Nat), ∃ k',
      evalPolicyQueries w t idx tl clock qs k =
        .ok (qs.any (fun q => w.queryMatch q authorizerId
          (TrustedOrigins.fromScopes q.scopes t authorizerId idx)), k') := by
  intro qs
  induction qs with
  | nil => exact fun k => ⟨k, rfl⟩
  | cons q qs ih =>
    intro k
    have hnt : ¬ tl ≤ clock k := not_le.mpr (H k)
    by_cases hres : w.queryMatch q authorizerId
        (TrustedOrigins.fromScopes q.scopes t authorizerId idx)
    · exact ⟨k + 1, by simp [evalPolicyQueries, hnt, hres]⟩
    · obtain ⟨k', hk'⟩ := ih (k + 1)
      exact ⟨k', by simp [evalPolicyQueries, hnt, hres, hk']⟩

theorem evalPolicies_spec (w : World) (t : TrustedOrigins) (idx : PkIndex)
    (tl : Nat) (clock : Nat → Nat) (H : ∀ j, clock j < tl) :
    ∀ (ps : List TPolicy) (i k : Nat), ∃ k',
      evalPolicies w t idx tl clock ps i k =
        .ok (firstMatchingPolicyFrom w t idx ps i, k') := by
  intro ps
  induction ps with
  | nil => exact fun i k => ⟨k, rfl⟩
  | cons p ps ih =>
    intro i k
    obtain ⟨k1, h1⟩ := evalPolicyQueries_spec w t idx tl clock H p.queries k
    by_cases hm : policyMatches w t idx p
    · refine ⟨k1, ?_⟩
      have hm' := hm
      simp only [policyMatches] at hm'
      simp [evalPolicies, h1, hm', firstMatchingPolicyFrom, hm]
    · obtain ⟨k2, h2⟩ := ih (i + 1) k1
      refine ⟨k2, ?_⟩
      have hm' := hm
      simp only [policyMatches] at hm'
      simp [evalPolicies, h1, hm', h2, firstMatchingPolicyFrom, hm]

theorem evalBlocksChecks_spec (w : World) (idx : PkIndex) (tl : Nat)
    (clock : Nat → Nat) (H : ∀ j, clock j < tl) :
    ∀ (bs : List Block) (i k : Nat) (errs : List FailedCheck), ∃ k',
      evalBlocksChecks w idx tl clock bs i k errs =
        .ok (errs ++ attenuationFailuresFrom w idx bs i, k') := by
  intro bs
  induction bs with
  | nil => exact fun i k errs => ⟨k, by simp [evalBlocksChecks, attenuationFailuresFrom]⟩
  | cons b bs ih =>
    intro i k errs
    obtain ⟨k1, h1⟩ := evalChecks_spec w (fun j c => .block (i + 1) j c)
      (TrustedOrigins.fromScopes b.scopes TrustedOrigins.deflt (i + 1) idx)
      (i + 1) idx tl clock H b.checks 0 k errs
    obtain ⟨k2, h2⟩ := ih (i + 1) k1
      (errs ++ siteFailuresFrom w
        (TrustedOrigins.fromScopes b.scopes TrustedOrigins.deflt (i + 1) idx)
        (i + 1) idx (fun j c => .block (i + 1) j c) b.checks 0)
    exact ⟨k2, by simp [evalBlocksChecks, h1, h2, attenuationFailuresFrom,
      List.append_assoc]⟩

theorem authorizeInner_spec (a : Authorizer) (clock : Nat → Nat) (start : Nat)
    (limits : RunLimits) (H : ∀ j, clock j < start + limits.maxTime) :
    a.authorizeInner clock start limits =
      match a.specPolicyResult, a.specFailedChecks.isEmpty with
      | some (.allow i), true => .ok i
      | none, _ => .error (.noMatchingPolicy a.specFailedChecks)
      | some (.allow i), false =>
        .error (.unauthorized (.allow i) a.specFailedChecks)
      | some (.deny i), _ =>
        .error (.unauthorized (.deny i) a.specFailedChecks) := by
  obtain ⟨k1, h1⟩ := evalChecks_spec a.world (fun i c => .authorizer i c)
    a.authorizerTrusted authorizerId a.publicKeyToBlockId
    (start + limits.maxTime) clock H a.authorizerBlockBuilder.checks 0 0 []
  simp only [Authorizer.authorizerTrusted] at h1
  cases hb : a.blocks with
  | none =>
    obtain ⟨k2, h2⟩ := evalPolicies_spec a.world a.authorizerTrusted
      a.publicKeyToBlockId (start + limits.maxTime) clock H a.policies 0 k1
    simp only [Authorizer.authorizerTrusted] at h2
    simp [Authorizer.authorizeInner, hb, h1, h2,
      Authorizer.specFailedChecks, Authorizer.specAuthorizerFailures,
      Authorizer.specAuthorityFailures, Authorizer.specAttenuationFailures,
      Authorizer.specPolicyResult, Authorizer.authorizerTrusted]
  | some bs =>
    cases bs with
    | nil =>
      obtain ⟨k2, h2⟩ := evalPolicies_spec a.world a.authorizerTrusted
        a.publicKeyToBlockId (start + limits.maxTime) clock H a.policies 0 k1
      simp only [Authorizer.authorizerTrusted] at h2
      simp [Authorizer.authorizeInner, hb, h1, h2,
        Authorizer.specFailedChecks, Authorizer.specAuthorizerFailures,
        Authorizer.specAuthorityFailures, Authorizer.specAttenuationFailures,
        Authorizer.specPolicyResult, Authorizer.authorizerTrusted]
    | cons b0 rest =>
      obtain ⟨k2, h2⟩ := evalChecks_spec a.world (fun j c => .block 0 j c)
        (TrustedOrigins.fromScopes b0.scopes TrustedOrigins.deflt 0
          a.publicKeyToBlockId)
        0 a.publicKeyToBlockId (start + limits.maxTime) clock H b0.checks 0 k1
        ([] ++ siteFailuresFrom a.world
          (TrustedOrigins.fromScopes a.authorizerBlockBuilder.scopes
            TrustedOrigins.deflt authorizerId a.publicKeyToBlockId)
          authorizerId a.publicKeyToBlockId (fun i c => .authorizer i c)
          a.authorizerBlockBuilder.checks 0)
      obtain ⟨k3, h3⟩ := evalPolicies_spec a.world a.authorizerTrusted
        a.publicKeyToBlockId (start + limits.maxTime) clock H a.policies 0 k2
      simp only [Authorizer.authorizerTrusted] at h3
      obtain ⟨k4, h4⟩ := evalBlocksChecks_spec a.world a.publicKeyToBlockId
        (start + limits.maxTime) clock H rest 0 k3
        (([] ++ siteFailuresFrom a.world
          (TrustedOrigins.fromScopes a.authorizerBlockBuilder.scopes
            TrustedOrigins.deflt authorizerId a.publicKeyToBlockId)
          authorizerId a.publicKeyToBlockId (fun i c => .authorizer i c)
          a.authorizerBlockBuilder.checks 0) ++
          siteFailuresFrom a.world
            (TrustedOrigins.fromScopes b0.scopes TrustedOrigins.deflt 0
              a.publicKeyToBlockId)
            0 a.publicKeyToBlockId (fun j c => .block 0 j c) b0.checks 0)
      simp only [List.nil_append] at h2 h4
      simp [Authorizer.authorizeInner, hb, h1, h2, h3, h4,
        Authorizer.specFailedChecks, Authorizer.specAuthorizerFailures,
        Authorizer.specAuthorityFailures, Authorizer.specAttenuationFailures,
        Authorizer.specPolicyResult, Authorizer.authorizerTrusted,
        List.append_assoc]

/-- C1: `authorize` follows the decision table — with the first matching
policy `Allow(i)` and no failed checks it returns `Ok(i)`; with `Allow(i)`
and failed checks it returns `Unauthorized{Allow(i), checks}`; with
`Deny(i)` it returns `Unauthorized{Deny(i), checks}` regardless of the
checks; with no matching policy it returns `NoMatchingPolicy{checks}`
(stated for runs that stay within the time budget). -/
theorem authorize_decision_table (a : Authorizer) (clock : Nat → Nat)
    (start : Nat) (limits : RunLimits)
    (H : ∀ j, clock j < start + limits.maxTime) :
    (∀ i, a.specPolicyResult = some (.allow i) → a.specFailedChecks = [] →
      a.authorizeInner clock start limits = .ok i) ∧
    (∀ i, a.specPolicyResult = some (.allow i) → a.specFailedChecks ≠ [] →
      a.authorizeInner clock start limits =
        .error (.unauthorized (.allow i) a.specFailedChecks)) ∧
    (∀ i, a.specPolicyResult = some (.deny i) →
      a.authorizeInner clock start limits =
        .error (.unauthorized (.deny i) a.specFailedChecks)) ∧
    (a.specPolicyResult = none →
      a.authorizeInner clock start limits =
        .error (.noMatchingPolicy a.specFailedChecks)) := by
  have h := authorizeInner_spec a clock start limits H
  refine ⟨?_, ?_, ?_, ?_⟩
  · intro i h1 h2
    simp [h, h1, h2]
  · intro i h1 h2
    have h2' : a.specFailedChecks.isEmpty = false := by
      cases hc : a.specFailedChecks with
      | nil => exact absurd hc h2
      | cons x xs => rfl
    rw [h, h1, h2']
  · intro i h1
    rw [h, h1]
  · intro h1
    rw [h, h1]

/-- C1 witness: the `allow if true` authorizer returns `Ok(0)`. -/
theorem authorize_decision_table_witness :
    exAllow.authorizeInner (fun _ => 0) 0 RunLimits.deflt = .ok 0 :=
  (authorize_decision_table exAllow (fun _ => 0) 0 RunLimits.deflt
    (fun _ => by norm_num [RunLimits.deflt])).1 0 (by decide) (by decide)

/-- C2 counterexample: a `Reject` check with two queries succeeds although
its first query matches — the code accepts a `Reject` check as soon as one
query has no match, not only when no query matches. -/
theorem reject_check_multi_query_counterexample :
    evalCheckQueries wP .reject TrustedOrigins.deflt authorizerId [] 10
      (fun _ => 0) rejectTwo.queries 0 = .ok (true, 2) ∧
    wP.queryMatch qP authorizerId
      (TrustedOrigins.fromScopes qP.scopes TrustedOrigins.deflt authorizerId
        []) = true ∧
    qP ∈ rejectTwo.queries := by decide

/-- C2 amended: at every check site, a `Reject` check succeeds iff at least
one of its queries has no matching binding against the trusted facts (for a
single-query check this is: iff its query does not match). -/
theorem reject_check_succeeds_iff_some_query_unmatched (w : World)
    (d : TrustedOrigins) (cb : Nat) (idx : PkIndex) (tl : Nat)
    (clock : Nat → Nat) (H : ∀ j, clock j < tl) (qs : List DRule) (k : Nat) :
    ∃ k' b, evalCheckQueries w .reject d cb idx tl clock qs k = .ok (b, k') ∧
      (b = true ↔ ∃ q ∈ qs, w.queryMatch q cb
        (TrustedOrigins.fromScopes q.scopes d cb idx) = false) := by
  obtain ⟨k', hk⟩ := evalCheckQueries_spec w .reject d cb idx tl clock H qs k
  refine ⟨k', _, hk, ?_⟩
  simp [queryRes, List.any_eq_true]

/-- C2 witness: the amended statement at the concrete two-query check. -/
theorem reject_check_succeeds_iff_some_query_unmatched_witness :
    ∃ k' b, evalCheckQueries wP .reject TrustedOrigins.deflt authorizerId []
      10 (fun _ => 0) rejectTwo.queries 0 = .ok (b, k') ∧
      (b = true ↔ ∃ q ∈ rejectTwo.queries, wP.queryMatch q authorizerId
        (TrustedOrigins.fromScopes q.scopes TrustedOrigins.deflt authorizerId
          []) = false) :=
  reject_check_succeeds_iff_some_query_unmatched wP TrustedOrigins.deflt
    authorizerId [] 10 (fun _ => 0) (fun _ => by norm_num) rejectTwo.queries 0

/-- C3: failed checks accumulate into one list — authorizer checks in
declaration order, then authority-block checks, then attenuation-block
checks — with one entry per failed check and no short-circuit, while
policies are evaluated in order and stop at the first match (so at most one
policy is recorded). -/
theorem authorize_accumulates_failed_checks (a : Authorizer)
    (clock : Nat → Nat) (start : Nat) (limits : RunLimits)
    (H : ∀ j, clock j < start + limits.maxTime) :
    (∀ e, a.authorizeInner clock start limits = .error e →
      e.getFailedChecks = some (a.specAuthorizerFailures ++
        (a.specAuthorityFailures ++ a.specAttenuationFailures))) ∧
    (∀ (w : World) (d : TrustedOrigins) (cb : Nat) (idx : PkIndex)
        (site : Nat → Check → FailedCheck) (cs : List Check) (i : Nat),
      (siteFailuresFrom w d cb idx site cs i).length =
        (cs.filter fun c => ! checkSucceeds w d cb idx c).length) ∧
    (∀ (w : World) (t : TrustedOrigins) (idx : PkIndex) (p : TPolicy)
        (ps : List TPolicy) (i : Nat), policyMatches w t idx p = true →
      firstMatchingPolicyFrom w t idx (p :: ps) i =
        some (match p.kind with
          | .allow => .allow i
          | .deny => .deny i)) ∧
    (∀ (w : World) (t : TrustedOrigins) (idx : PkIndex) (p : TPolicy)
        (ps : List TPolicy) (i : Nat), policyMatches w t idx p = false →
      firstMatchingPolicyFrom w t idx (p :: ps) i =
        firstMatchingPolicyFrom w t idx ps (i + 1)) := by
  have h := authorizeInner_spec a clock start limits H
  refine ⟨?_, ?_, ?_, ?_⟩
  · intro e he
    rw [h] at he
    cases hpr : a.specPolicyResult with
    | none =>
      rw [hpr] at he
      cases hce : a.specFailedChecks.isEmpty <;> rw [hce] at he <;>
        · injection he with he'
          rw [← he']
          simp [TokenError.getFailedChecks, Authorizer.specFailedChecks]
    | some mp =>
      cases mp with
      | allow i =>
        rw [hpr] at he
        cases hce : a.specFailedChecks.isEmpty <;> rw [hce] at he
        · injection he with he'
          rw [← he']
          simp [TokenError.getFailedChecks, Authorizer.specFailedChecks]
        · exact absurd he (by simp)
      | deny i =>
        rw [hpr] at he
        cases hce : a.specFailedChecks.isEmpty <;> rw [hce] at he <;>
          · injection he with he'
            rw [← he']
            simp [TokenError.getFailedChecks, Authorizer.specFailedChecks]
  · intro w d cb idx site cs
    induction cs with
    | nil => intro i; simp [siteFailuresFrom]
    | cons c cs ih =>
      intro i
      by_cases hs : checkSucceeds w d cb idx c <;>
        simp [siteFailuresFrom, hs, ih]
  · intro w t idx p ps i hm
    simp [firstMatchingPolicyFrom, hm]
  · intro w t idx p ps i hm
    simp [firstMatchingPolicyFrom, hm]

/-- C3 witness: the failing-check authorizer reports exactly its one failed
authorizer check. -/
theorem authorize_accumulates_failed_checks_witness :
    (TokenError.noMatchingPolicy
      [.authorizer 0 failCheck]).getFailedChecks =
      some (exFailingCheck.specAuthorizerFailures ++
        (exFailingCheck.specAuthorityFailures ++
          exFailingCheck.specAttenuationFailures)) :=
  (authorize_accumulates_failed_checks exFailingCheck (fun _ => 0) 0
    RunLimits.deflt (fun _ => by norm_num [RunLimits.deflt])).1 _ (by decide)

/-- C4: `query`, `query_all` and `authorize` reuse the cached engine run
(the engine runs at most once per authorizer lifetime: a cached time is
returned as-is and every successful `run` leaves the cache set), deduct the
performed iterations and the elapsed execution time from the limits before
evaluating, and return `RunLimit(Timeout)` with the state untouched when the
elapsed time already reaches `max_time`. -/
theorem budget_consumed_across_calls (a : Authorizer) (t : Nat)
    (h : a.executionTime = some t) :
    (∀ engine : Engine, a.run engine = (.ok t, a)) ∧
    (∀ (b : Authorizer) (engine : Engine) (r : Except TokenError Nat)
        (b' : Authorizer), Authorizer.run engine b = (r, b') →
      (∃ u, r = .ok u) → b'.executionTime.isSome = true) ∧
    (∀ (engine : Engine) (qe : Nat) (rule : DRule), t < a.limits.maxTime →
      Authorizer.query engine qe rule a =
        Authorizer.queryWithLimits engine qe rule
          { a.limits with
            maxIterations := a.limits.maxIterations - a.world.iterations
            maxTime := a.limits.maxTime - t } a) ∧
    (∀ (engine : Engine) (qe : Nat) (rule : DRule), t < a.limits.maxTime →
      Authorizer.queryAll engine qe rule a =
        Authorizer.queryAllWithLimits engine qe rule
          { a.limits with
            maxIterations := a.limits.maxIterations - a.world.iterations
            maxTime := a.limits.maxTime - t } a) ∧
    (∀ (engine : Engine) (clock : Nat → Nat) (start ae : Nat),
        t < a.limits.maxTime →
      Authorizer.authorize engine clock start ae a =
        Authorizer.authorizeWithLimits engine clock start ae
          { a.limits with
            maxIterations := a.limits.maxIterations - a.world.iterations
            maxTime := a.limits.maxTime - t } a) ∧
    (∀ (engine : Engine) (qe : Nat) (rule : DRule), a.limits.maxTime ≤ t →
      Authorizer.query engine qe rule a = (.error .runLimitTimeout, a)) ∧
    (∀ (engine : Engine) (qe : Nat) (rule : DRule), a.limits.maxTime ≤ t →
      Authorizer.queryAll engine qe rule a = (.error .runLimitTimeout, a)) ∧
    (∀ (engine : Engine) (clock : Nat → Nat) (start ae : Nat),
        a.limits.maxTime ≤ t →
      Authorizer.authorize engine clock start ae a =
        (.error .runLimitTimeout, a)) := by
  have hrun : ∀ engine : Engine, a.run engine = (.ok t, a) := by
    intro engine
    simp [Authorizer.run, h]
  refine ⟨hrun, ?_, ?_, ?_, ?_, ?_, ?_, ?_⟩
  · intro b engine r b' hb ⟨u, hu⟩
    cases hbe : b.executionTime with
    | some t' =>
      simp [Authorizer.run, hbe] at hb
      rw [← hb.2, hbe]
      rfl
    | none =>
      simp only [Authorizer.run, hbe] at hb
      cases hen : engine b.world b.limits with
      | ok p =>
        rw [hen] at hb
        cases hb
        rfl
      | error e =>
        rw [hen] at hb
        cases hb
        exact absurd hu (by simp)
  · intro engine qe rule hlt
    simp [Authorizer.query, hrun, not_le.mpr hlt]
  · intro engine qe rule hlt
    simp [Authorizer.queryAll, hrun, not_le.mpr hlt]
  · intro engine clock start ae hlt
    simp [Authorizer.authorize, hrun, not_le.mpr hlt]
  · intro engine qe rule hle
    simp [Authorizer.query, hrun, hle]
  · intro engine qe rule hle
    simp [Authorizer.queryAll, hrun, hle]
  · intro engine clock start ae hle
    simp [Authorizer.authorize, hrun, hle]

/-- C4 witness: the cached authorizer returns its stored execution time
without consulting the engine. -/
theorem budget_consumed_across_calls_witness :
    exCached.run idEngine = (.ok 5, exCached) :=
  (budget_consumed_across_calls exCached 5 rfl).1 idEngine

theorem filterMap_filter_none {α β : Type} (p : α → Bool)
    (f : α → Option β) (h : ∀ a, p a = false → f a = none) (l : List α) :
    (l.filter p).filterMap f = l.filterMap f := by
  induction l with
  | nil => rfl
  | cons a l ih =>
    by_cases hp : p a
    · cases hfa : f a with
      | none => simp [List.filter_cons, hp, List.filterMap_cons, hfa, ih]
      | some b => simp [List.filter_cons, hp, List.filterMap_cons, hfa, ih]
    · have h0 := h a (by simpa using hp)
      simp [List.filter_cons, hp, List.filterMap_cons, h0, ih]

theorem extendBinding_filter (facts : List (Origin × Fact))
    (trusted : TrustedOrigins) (pat : Predicate) (b : Subst × Origin) :
    extendBinding (facts.filter fun p => factVisible trusted p.1) trusted pat
      b = extendBinding facts trusted pat b := by
  simp only [extendBinding]
  refine filterMap_filter_none _ _ ?_ facts
  intro a ha
  obtain ⟨o, f⟩ := a
  simp only at ha
  simp [ha]

theorem matchBody_filter (facts : List (Origin × Fact))
    (trusted : TrustedOrigins) (body : List Predicate) :
    matchBody (facts.filter fun p => factVisible trusted p.1) trusted body =
      matchBody facts trusted body := by
  simp only [matchBody]
  congr 1
  funext acc pat
  congr 1
  funext b
  exact extendBinding_filter facts trusted pat b

/-- C5 counterexample: with empty scopes, the check of attenuation block 1
succeeds through the authority fact `p()` of origin `{0}` — yet
`{0} ⊄ {1, AUTHORIZER}`, and under the claimed trusted set `{1, AUTHORIZER}`
the check's query would not match, so the claim would force an
`Unauthorized` result where the code returns `Ok(0)`. -/
theorem attenuation_block_default_trust_counterexample :
    exAttenuation.authorizeInner (fun _ => 0) 0 RunLimits.deflt = .ok 0 ∧
    wP.queryMatch qP 1 ({1, authorizerId} : Finset Nat) = false ∧
    TrustedOrigins.fromScopes [] TrustedOrigins.deflt 1 [] ≠
      ({1, authorizerId} : Finset Nat) ∧
    ¬ (({0} : Finset Nat) ⊆ ({1, authorizerId} : Finset Nat)) := by decide

/-- C5 amended: an attenuation block's default trusted origins are derived
from its own scopes with current block id `b` over the default trust
`{0, AUTHORIZER}`, so with empty scopes a check of block `b` sees exactly
facts whose origin set is contained in `{0, b, AUTHORIZER}` (the authority
block is trusted by default); sibling blocks remain invisible unless
explicitly scoped, and authority-block checks default to `{0, AUTHORIZER}`. -/
theorem attenuation_block_default_trust (b : Block) (i : Nat) (idx : PkIndex)
    (hb : b.scopes = []) :
    TrustedOrigins.fromScopes b.scopes TrustedOrigins.deflt (i + 1) idx =
      ({0, i + 1, authorizerId} : Finset Nat) ∧
    (∀ s, 1 ≤ s → s ≠ i + 1 → s ≠ authorizerId →
      s ∉ TrustedOrigins.fromScopes b.scopes TrustedOrigins.deflt (i + 1)
        idx) ∧
    (∀ b0 : Block, b0.scopes = [] →
      TrustedOrigins.fromScopes b0.scopes TrustedOrigins.deflt 0 idx =
        TrustedOrigins.deflt) ∧
    (∀ (w : World) (trusted : TrustedOrigins) (body : List Predicate),
      matchBody (w.facts.filter fun p => factVisible trusted p.1) trusted
        body = matchBody w.facts trusted body) := by
  have h1 : TrustedOrigins.fromScopes b.scopes TrustedOrigins.deflt (i + 1)
      idx = ({0, i + 1, authorizerId} : Finset Nat) := by
    rw [hb]
    simp only [TrustedOrigins.fromScopes, List.isEmpty_nil, if_true]
    ext s
    simp [TrustedOrigins.deflt]
    tauto
  refine ⟨h1, ?_, ?_, ?_⟩
  · intro s hs1 hsi hsa
    rw [h1]
    simp [Finset.mem_insert]
    exact ⟨by omega, hsi, hsa⟩
  · intro b0 hb0
    rw [hb0]
    simp only [TrustedOrigins.fromScopes, List.isEmpty_nil, if_true]
    ext s
    simp [TrustedOrigins.deflt]
  · intro w trusted body
    exact matchBody_filter w.facts trusted body

/-- C5 witness: the amended trusted-origin set for block 1 with no index. -/
theorem attenuation_block_default_trust_witness :
    TrustedOrigins.fromScopes (Block.mk [] []).scopes TrustedOrigins.deflt
      (0 + 1) [] = ({0, 0 + 1, authorizerId} : Finset Nat) :=
  (attenuation_block_default_trust (Block.mk [] []) 0 [] rfl).1


theorem queryRule_filter (w : World) (rule : DRule) (lim : Nat)
    (trusted : TrustedOrigins) :
    (World.mk (w.facts.filter fun p => factVisible trusted p.1)
      w.iterations).queryRule rule lim trusted =
      w.queryRule rule lim trusted := by
  simp only [World.queryRule, ruleBindings]
  rw [matchBody_filter]

/-- C6: an unscoped `query` resolves its trusted origins to the default
`{0, AUTHORIZER}` (authorizer and authority only), and its results draw only
on facts visible under that set, so attenuation- and third-party-block facts
are not returned; an unscoped `query_all` trusts the token's full origin
set.  In the S3 scenario, `query_all("g($x) <- group($x)")` returns
`[g("admin")]` while `query` returns `[]`. -/
theorem query_default_scope_visibility (a : Authorizer) (rule : DRule)
    (L : RunLimits) (h : rule.scopes = []) :
    TrustedOrigins.fromScopes rule.scopes TrustedOrigins.deflt authorizerId
      a.publicKeyToBlockId = TrustedOrigins.deflt ∧
    a.queryInner rule L =
      ((a.world.queryRule rule authorizerId TrustedOrigins.deflt).flatMap
        fun p => p.2) ∧
    a.queryAllInner rule L =
      ((a.world.queryRule rule 0 a.tokenOrigins).flatMap
        fun p => p.2).dedup ∧
    (∀ trusted : TrustedOrigins,
      (World.mk (a.world.facts.filter fun p => factVisible trusted p.1)
        a.world.iterations).queryRule rule authorizerId trusted =
      a.world.queryRule rule authorizerId trusted) ∧
    s3Authorizer.queryInner gRule RunLimits.deflt = [] ∧
    s3Authorizer.queryAllInner gRule RunLimits.deflt = [gAdmin] := by
  have h1 : TrustedOrigins.fromScopes rule.scopes TrustedOrigins.deflt
      authorizerId a.publicKeyToBlockId = TrustedOrigins.deflt := by
    rw [h]
    simp only [TrustedOrigins.fromScopes, List.isEmpty_nil, if_true]
    ext s
    simp [TrustedOrigins.deflt]
  refine ⟨h1, ?_, ?_, ?_, by decide, by decide⟩
  · simp only [Authorizer.queryInner, h1]
  · simp only [Authorizer.queryAllInner, h, List.isEmpty_nil, if_true]
  · intro trusted
    exact queryRule_filter a.world rule authorizerId trusted

/-- C6 witness: the S3 scenario instance of the unscoped query. -/
theorem query_default_scope_visibility_witness :
    s3Authorizer.queryInner gRule RunLimits.deflt = [] :=
  (query_default_scope_visibility s3Authorizer gRule RunLimits.deflt
    rfl).2.2.2.2.1

theorem decodeChars_encode (cs : List Char) (r : List Nat) :
    decodeChars cs.length (cs.map Char.toNat ++ r) = some (cs, r) := by
  induction cs with
  | nil => rfl
  | cons c cs ih => simp [decodeChars, ih, Char.ofNat_toNat]

theorem decodeString_encode (s : String) (r : List Nat) :
    decodeString (encodeString s ++ r) = some (s, r) := by
  cases s with
  | mk cs => simp [encodeString, decodeString, decodeChars_encode]

theorem decodeNats_encode (l : List Nat) (r : List Nat) :
    decodeNats l.length (l ++ r) = some (l, r) := by
  induction l with
  | nil => rfl
  | cons n l ih => simp [decodeNats, ih]

theorem decodeInt_encode (i : Int) (r : List Nat) :
    decodeInt (encodeInt i ++ r) = some (i, r) := by
  by_cases hi : i < 0
  · simp only [encodeInt, hi, if_true, List.cons_append, List.nil_append,
      decodeInt]
    congr 2
    omega
  · simp only [encodeInt, hi, if_false, List.cons_append, List.nil_append,
      decodeInt]
    congr 2
    omega

theorem decodeTerm_encode (t : Term) (r : List Nat) :
    decodeTerm (encodeTerm t ++ r) = some (t, r) := by
  cases t with
  | var v => simp [encodeTerm, decodeTerm, decodeString_encode]
  | int i => simp [encodeTerm, decodeTerm, decodeInt_encode]
  | str s => simp [encodeTerm, decodeTerm, decodeString_encode]
  | date d => rfl
  | bytes b => simp [encodeTerm, decodeTerm, decodeNats_encode]
  | boolean b => cases b <;> rfl
  | null => rfl
  | parameter p => simp [encodeTerm, decodeTerm, decodeString_encode]

theorem decodeItems_encode {α : Type} (dec : List Nat → Option (α × List Nat))
    (enc : α → List Nat) (l : List α)
    (h : ∀ a ∈ l, ∀ r', dec (enc a ++ r') = some (a, r')) (r : List Nat) :
    decodeItems dec l.length (l.flatMap enc ++ r) = some (l, r) := by
  induction l generalizing r with
  | nil => rfl
  | cons a l ih =>
    simp only [List.length_cons, List.flatMap_cons, List.append_assoc,
      decodeItems]
    simp only [h a (by simp) (l.flatMap enc ++ r)]
    simp only [ih (fun x hx r' => h x (by simp [hx]) r') r]

theorem decodeListN_encode {α : Type} (dec : List Nat → Option (α × List Nat))
    (enc : α → List Nat) (l : List α)
    (h : ∀ a ∈ l, ∀ r', dec (enc a ++ r') = some (a, r')) (r : List Nat) :
    decodeListN dec (encodeListN enc l ++ r) = some (l, r) := by
  simp only [encodeListN, List.cons_append, decodeListN]
  exact decodeItems_encode dec enc l h r

theorem decodePredicate_encode (p : Predicate) (r : List Nat) :
    decodePredicate (encodePredicate p ++ r) = some (p, r) := by
  simp only [encodePredicate, List.append_assoc, decodePredicate]
  simp only [decodeString_encode]
  simp only [decodeListN_encode decodeTerm encodeTerm p.terms
    (fun a _ r' => decodeTerm_encode a r') r]

theorem decodeBinaryOp_encode (op : BinaryOp) :
    decodeBinaryOp (encodeBinaryOp op) = some op := by
  cases op <;> rfl

theorem decodeExpression_encode (e : Expression) :
    ∀ (fuel : Nat), e.depth ≤ fuel → ∀ r,
      decodeExpression fuel (encodeExpression e ++ r) = some (e, r) := by
  induction e with
  | value t =>
    intro fuel hf r
    cases fuel with
    | zero => simp [Expression.depth] at hf
    | succ n =>
      simp [encodeExpression, decodeExpression, decodeTerm_encode]
  | binary op l rr ihl ihr =>
    intro fuel hf r
    cases fuel with
    | zero => simp [Expression.depth] at hf
    | succ n =>
      have hl : l.depth ≤ n := by
        simp only [Expression.depth] at hf
        omega
      have hr2 : rr.depth ≤ n := by
        simp only [Expression.depth] at hf
        omega
      simp only [encodeExpression, List.cons_append, List.append_eq,
        List.append_assoc, decodeExpression]
      simp only [decodeBinaryOp_encode op]
      simp only [ihl n hl (encodeExpression rr ++ r)]
      simp only [ihr n hr2 r]

theorem decodeExpressionTop_encode (e : Expression) (r : List Nat) :
    decodeExpressionTop (encodeExpressionTop e ++ r) = some (e, r) := by
  simp only [encodeExpressionTop, List.cons_append, decodeExpressionTop]
  exact decodeExpression_encode e e.depth le_rfl r

theorem decodeScope_encode (s : Scope) (r : List Nat) :
    decodeScope (encodeScope s ++ r) = some (s, r) := by
  cases s <;> rfl

theorem decodeDRule_encode (ru : DRule) (r : List Nat) :
    decodeDRule (encodeDRule ru ++ r) = some (ru, r) := by
  simp only [encodeDRule, List.append_assoc, decodeDRule]
  simp only [decodePredicate_encode]
  simp only [decodeListN_encode decodePredicate encodePredicate ru.body
    (fun a _ r' => decodePredicate_encode a r')]
  simp only [decodeListN_encode decodeExpressionTop encodeExpressionTop
    ru.expressions (fun a _ r' => decodeExpressionTop_encode a r')]
  simp only [decodeListN_encode decodeScope encodeScope ru.scopes
    (fun a _ r' => decodeScope_encode a r') r]

theorem decodeCheckKind_encode (k : CheckKind) :
    decodeCheckKind (encodeCheckKind k) = some k := by
  cases k <;> rfl

theorem decodeCheck_encode (c : Check) (r : List Nat) :
    decodeCheck (encodeCheck c ++ r) = some (c, r) := by
  simp only [encodeCheck, List.cons_append, decodeCheck]
  simp only [decodeCheckKind_encode]
  simp only [decodeListN_encode decodeDRule encodeDRule c.queries
    (fun a _ r' => decodeDRule_encode a r') r]

theorem decodePolicyKind_encode (k : PolicyKind) :
    decodePolicyKind (encodePolicyKind k) = some k := by
  cases k <;> rfl

theorem decodeTPolicy_encode (p : TPolicy) (r : List Nat) :
    decodeTPolicy (encodeTPolicy p ++ r) = some (p, r) := by
  simp only [encodeTPolicy, List.cons_append, decodeTPolicy]
  simp only [decodePolicyKind_encode]
  simp only [decodeListN_encode decodeDRule encodeDRule p.queries
    (fun a _ r' => decodeDRule_encode a r') r]

theorem deserialize_serialize (ap : AuthorizerPolicies) :
    AuthorizerPolicies.deserialize ap.serialize = some ap := by
  obtain ⟨v, facts, rules, checks, policies⟩ := ap
  simp only [AuthorizerPolicies.serialize, AuthorizerPolicies.deserialize,
    List.append_eq, List.append_assoc, List.cons_append]
  simp only [decodeListN_encode decodePredicate encodePredicate facts
    (fun a _ r' => decodePredicate_encode a r')]
  simp only [decodeListN_encode decodeDRule encodeDRule rules
    (fun a _ r' => decodeDRule_encode a r')]
  simp only [decodeListN_encode decodeCheck encodeCheck checks
    (fun a _ r' => decodeCheck_encode a r')]
  have hp := decodeListN_encode decodeTPolicy encodeTPolicy policies
    (fun a _ r' => decodeTPolicy_encode a r') []
  rw [List.append_nil] at hp
  simp only [hp]
  rfl

theorem exceptOkBind {ε α β : Type} (a : α) (f : α → Except ε β) :
    ((Except.ok a : Except ε α) >>= f) = f a := rfl

theorem foldlM_fact (fs : List Fact) :
    ∀ b : BlockBuilder, fs.all Predicate.noParameter = true →
      List.foldlM BlockBuilder.fact b fs =
        .ok { b with facts := b.facts ++ fs } := by
  induction fs with
  | nil => intro b _; simp [List.foldlM_nil, pure, Except.pure]
  | cons f fs ih =>
    intro b hall
    simp only [List.all_cons, Bool.and_eq_true] at hall
    simp only [List.foldlM_cons, BlockBuilder.fact, hall.1, if_true,
      exceptOkBind]
    rw [ih _ hall.2]
    simp [List.append_assoc]

theorem foldlM_rule (rs : List DRule) :
    ∀ b : BlockBuilder, rs.all DRule.noParameter = true →
      List.foldlM BlockBuilder.rule b rs =
        .ok { b with rules := b.rules ++ rs } := by
  induction rs with
  | nil => intro b _; simp [List.foldlM_nil, pure, Except.pure]
  | cons ru rs ih =>
    intro b hall
    simp only [List.all_cons, Bool.and_eq_true] at hall
    simp only [List.foldlM_cons, BlockBuilder.rule, hall.1, if_true,
      exceptOkBind]
    rw [ih _ hall.2]
    simp [List.append_assoc]

theorem foldlM_check (cs : List Check) :
    ∀ b : BlockBuilder, cs.all Check.noParameter = true →
      List.foldlM BlockBuilder.check b cs =
        .ok { b with checks := b.checks ++ cs } := by
  induction cs with
  | nil => intro b _; simp [List.foldlM_nil, pure, Except.pure]
  | cons c cs ih =>
    intro b hall
    simp only [List.all_cons, Bool.and_eq_true] at hall
    simp only [List.foldlM_cons, BlockBuilder.check, hall.1, if_true,
      exceptOkBind]
    rw [ih _ hall.2]
    simp [List.append_assoc]

/-- C7: the save/load container round-trips — `save` captures exactly the
authorizer-local facts, rules, checks and policies (never token-derived
world data), rebuilding through `TryFrom` yields an authorizer with the same
facts, rules, checks and policies, and `deserialize ∘ serialize` is the
identity on the container. -/
theorem save_load_roundtrip (a : Authorizer)
    (hf : a.authorizerBlockBuilder.facts.all Predicate.noParameter = true)
    (hr : a.authorizerBlockBuilder.rules.all DRule.noParameter = true)
    (hc : a.authorizerBlockBuilder.checks.all Check.noParameter = true) :
    a.save.facts = a.authorizerBlockBuilder.facts ∧
    a.save.rules = a.authorizerBlockBuilder.rules ∧
    a.save.checks = a.authorizerBlockBuilder.checks ∧
    a.save.policies = a.policies ∧
    (∃ b, Authorizer.tryFrom a.save = .ok b ∧
      b.authorizerBlockBuilder.facts = a.authorizerBlockBuilder.facts ∧
      b.authorizerBlockBuilder.rules = a.authorizerBlockBuilder.rules ∧
      b.authorizerBlockBuilder.checks = a.authorizerBlockBuilder.checks ∧
      b.policies = a.policies) ∧
    AuthorizerPolicies.deserialize a.save.serialize = some a.save := by
  refine ⟨rfl, rfl, rfl, rfl, ?_, deserialize_serialize a.save⟩
  refine ⟨{ Authorizer.new with
    authorizerBlockBuilder :=
      { facts := a.authorizerBlockBuilder.facts
        rules := a.authorizerBlockBuilder.rules
        checks := a.authorizerBlockBuilder.checks
        scopes := [] }
    policies := a.policies }, ?_, rfl, rfl, rfl, rfl⟩
  simp only [Authorizer.tryFrom, Authorizer.save, Authorizer.new]
  rw [foldlM_fact _ _ hf]
  simp only [exceptOkBind]
  rw [foldlM_rule _ _ hr]
  simp only [exceptOkBind]
  rw [foldlM_check _ _ hc]
  simp only [exceptOkBind]
  rfl

/-- C7 witness: the round-trip at a concrete populated authorizer. -/
theorem save_load_roundtrip_witness :
    AuthorizerPolicies.deserialize exSaveLoad.save.serialize =
      some exSaveLoad.save :=
  (save_load_roundtrip exSaveLoad (by decide) (by decide) (by decide)).2.2.2.2.2

/-- C8: the limits argument of `query_with_limits` and
`query_all_with_limits` has no effect on the evaluation or its result — the
inner evaluation ignores it, invoking `query_rule` with the hardcoded
parameter `usize::MAX` for `query` and `0` for `query_all`, so any two
limits produce the same result. -/
theorem query_limits_have_no_effect (a : Authorizer) (engine : Engine)
    (qe : Nat) (rule : DRule) (L1 L2 : RunLimits) :
    a.queryInner rule L1 = a.queryInner rule L2 ∧
    a.queryAllInner rule L1 = a.queryAllInner rule L2 ∧
    (Authorizer.queryWithLimits engine qe rule L1 a).1 =
      (Authorizer.queryWithLimits engine qe rule L2 a).1 ∧
    (Authorizer.queryAllWithLimits engine qe rule L1 a).1 =
      (Authorizer.queryAllWithLimits engine qe rule L2 a).1 ∧
    a.queryInner rule L1 =
      ((a.world.queryRule rule authorizerId
        (TrustedOrigins.fromScopes rule.scopes TrustedOrigins.deflt
          authorizerId a.publicKeyToBlockId)).flatMap fun p => p.2) ∧
    a.queryAllInner rule L1 =
      ((a.world.queryRule rule 0
        (if rule.scopes.isEmpty then a.tokenOrigins
         else TrustedOrigins.fromScopes rule.scopes TrustedOrigins.deflt
           authorizerId a.publicKeyToBlockId)).flatMap
        fun p => p.2).dedup := by
  refine ⟨rfl, rfl, ?_, ?_, rfl, rfl⟩
  · cases hr : Authorizer.run engine a with
    | mk r a' => cases r <;> simp [Authorizer.queryWithLimits, hr] <;> rfl
  · cases hr : Authorizer.run engine a with
    | mk r a' => cases r <;> simp [Authorizer.queryAllWithLimits, hr] <;> rfl

/-- C9: `save` always stamps `MAX_SCHEMA_VERSION` into the container, and
the `TryFrom` conversion ignores the version field entirely — containers
differing only in version convert identically, so no version value can make
the conversion fail. -/
theorem save_version_and_tryfrom_ignores_version (ap : AuthorizerPolicies)
    (v1 v2 : Nat) :
    (∀ a : Authorizer, a.save.version = maxSchemaVersion) ∧
    Authorizer.tryFrom { ap with version := v1 } =
      Authorizer.tryFrom { ap with version := v2 } ∧
    Authorizer.tryFrom { ap with version := v1 } = Authorizer.tryFrom ap :=
  ⟨fun _ => rfl, rfl, rfl⟩

theorem insertFact_keys (o : Origin) (f : Fact) :
    ∀ fs : FactSet, (FactSet.insertFact fs o f).map Prod.fst =
      if o ∈ fs.map Prod.fst then fs.map Prod.fst
      else fs.map Prod.fst ++ [o] := by
  intro fs
  induction fs with
  | nil => simp [FactSet.insertFact]
  | cons p fs ih =>
    obtain ⟨o', l⟩ := p
    by_cases h : o' = o
    · simp [FactSet.insertFact, h]
    · have h' : ¬ o = o' := fun he => h he.symm
      simp only [FactSet.insertFact, h, if_false, List.map_cons, ih]
      by_cases ho : o ∈ fs.map Prod.fst <;>
        simp [ho, List.mem_cons, h']

theorem insertFact_values_nodup (o : Origin) (f : Fact) :
    ∀ fs : FactSet, (∀ p ∈ fs, p.2.Nodup) →
      ∀ p ∈ FactSet.insertFact fs o f, p.2.Nodup := by
  intro fs
  induction fs with
  | nil =>
    intro _ p hp
    simp [FactSet.insertFact] at hp
    simp [hp]
  | cons q fs ih =>
    obtain ⟨o', l⟩ := q
    intro h p hp
    by_cases he : o' = o
    · simp only [FactSet.insertFact, he, if_true, List.mem_cons] at hp
      rcases hp with hp | hp
      · subst hp
        by_cases hf : f ∈ l
        · simpa [hf] using h (o, l) (by simp [he])
        · have hl : l.Nodup := by simpa using h (o', l) (by simp)
          simp [hf, List.nodup_append, hl]
      · exact h p (by simp [hp])
    · simp only [FactSet.insertFact, he, if_false, List.mem_cons] at hp
      rcases hp with hp | hp
      · subst hp
        exact h (o', l) (by simp)
      · exact ih (fun q hq => h q (by simp [hq])) p hp

theorem foldl_insert_wf (head : Predicate) :
    ∀ (bindings : List (Subst × Origin)) (fs : FactSet),
      (fs.map Prod.fst).Nodup → (∀ p ∈ fs, p.2.Nodup) →
      (((bindings.foldl (fun fs so =>
          let h := Predicate.apply so.1 head
          if h.isGround then FactSet.insertFact fs so.2 h else fs)
        fs).map Prod.fst).Nodup ∧
      ∀ p ∈ bindings.foldl (fun fs so =>
          let h := Predicate.apply so.1 head
          if h.isGround then FactSet.insertFact fs so.2 h else fs) fs,
        p.2.Nodup) := by
  intro bindings
  induction bindings with
  | nil => intro fs h1 h2; exact ⟨h1, h2⟩
  | cons so bs ih =>
    intro fs h1 h2
    simp only [List.foldl_cons]
    by_cases hg : (Predicate.apply so.1 head).isGround
    · simp only [hg, if_true]
      refine ih _ ?_ ?_
      · rw [insertFact_keys]
        by_cases ho : so.2 ∈ fs.map Prod.fst <;>
          simp [ho, h1, List.nodup_append]
      · exact insertFact_values_nodup so.2 _ fs h2
    · simp only [hg, Bool.false_eq_true, if_false]
      exact ih fs h1 h2

theorem queryRule_wf (w : World) (r : DRule) (lim : Nat)
    (t : TrustedOrigins) :
    (((w.queryRule r lim t).map Prod.fst).Nodup ∧
      ∀ p ∈ w.queryRule r lim t, p.2.Nodup) := by
  simp only [World.queryRule]
  exact foldl_insert_wf r.head (ruleBindings w r t) [] (by simp) (by simp)

theorem count_flatMap_eq_filter_length (f : Fact) :
    ∀ fs : FactSet, (∀ p ∈ fs, p.2.Nodup) →
      ((fs.flatMap fun p => p.2).count f) =
        (fs.filter fun p => decide (f ∈ p.2)).length := by
  intro fs
  induction fs with
  | nil => intro _; simp
  | cons p fs ih =>
    intro h
    simp only [List.flatMap_cons, List.count_append, List.filter_cons]
    by_cases hf : f ∈ p.2
    · have h1 : p.2.count f = 1 :=
        List.count_eq_one_of_mem (h p (by simp)) hf
      simp [hf, h1, ih (fun q hq => h q (by simp [hq]))]
      omega
    · have h0 : p.2.count f = 0 := List.count_eq_zero_of_not_mem hf
      simp [hf, h0, ih (fun q hq => h q (by simp [hq]))]

/-- C10: `query_all` collects its matching facts into a set, so its result
list is duplicate-free (a fact derived under several origins appears once),
while `query` flattens the per-origin result sets, so a fact appears once
per origin that derives it — its multiplicity equals the number of (pairwise
distinct) origin entries whose fact set contains it. -/
theorem query_all_dedup_query_per_origin (a : Authorizer) (rule : DRule)
    (L : RunLimits) (f : Fact) :
    (a.queryAllInner rule L).Nodup ∧
    (a.queryInner rule L).count f =
      ((a.world.queryRule rule authorizerId
        (TrustedOrigins.fromScopes rule.scopes TrustedOrigins.deflt
          authorizerId a.publicKeyToBlockId)).filter
        (fun p => decide (f ∈ p.2))).length ∧
    ((a.world.queryRule rule authorizerId
      (TrustedOrigins.fromScopes rule.scopes TrustedOrigins.deflt
        authorizerId a.publicKeyToBlockId)).map Prod.fst).Nodup := by
  refine ⟨List.nodup_dedup _, ?_, (queryRule_wf a.world rule authorizerId
    (TrustedOrigins.fromScopes rule.scopes TrustedOrigins.deflt authorizerId
      a.publicKeyToBlockId)).1⟩
  exact count_flatMap_eq_filter_length f _
    (queryRule_wf a.world rule authorizerId
      (TrustedOrigins.fromScopes rule.scopes TrustedOrigins.deflt
        authorizerId a.publicKeyToBlockId)).2
